import Mathlib

/-!
Verification of the `fg-dynamic-component` library
(`src/projects/fg-dynamic-component/src/lib/fg-dynamic.component.ts`, with
the variant implementations kept alongside it).

The development shallowly embeds the component's pure logic:
JavaScript values are modelled by the inductive `JsValue` (objects are
association lists of fields, values are finite trees, which matches the
JSON-like configuration and `structuredClone`d view models the library
manipulates); JavaScript exceptions (`TypeError` on property access of
`null`/`undefined`, strict-mode writes to primitives) are modelled by
`Option`/abort flags; the single `eval` call is modelled by a total
oracle `String → JsValue`, since the claims under study only constrain
when `eval` is (not) invoked, never what it returns.  DOM manipulation
(`Renderer2`, `removeHostElement`) and change detection are modelled as
emitted effects only.
-/

namespace FGDynamic

/-- A JavaScript value, as far as the library's logic observes it:
`undefined`, `null`, booleans, numbers (the integers that appear in the
configurations under study), strings, regular-expression objects (only
their source is observed) and plain objects as ordered field lists. -/
inductive JsValue : Type where
  | undefined : JsValue
  | null : JsValue
  | bool (b : Bool) : JsValue
  | num (n : Int) : JsValue
  | str (s : String) : JsValue
  | regexp (source : String) : JsValue
  | obj (fields : List (String × JsValue)) : JsValue

/-- JavaScript truthiness of a `JsValue` (`NaN` is not modelled;
objects and regular expressions are always truthy). -/
def truthy : JsValue → Bool
  | .undefined => false
  | .null => false
  | .bool b => b
  | .num n => n != 0
  | .str s => s != ""
  | .regexp _ => true
  | .obj _ => true

/-- The JavaScript `value == null` test: true exactly for `null` and
`undefined`. -/
def nullish : JsValue → Bool
  | .undefined => true
  | .null => true
  | _ => false

/-- `typeof value === 'string'`. -/
def isStrV : JsValue → Bool
  | .str _ => true
  | _ => false

/-- `typeof value === 'number'`. -/
def isNumV : JsValue → Bool
  | .num _ => true
  | _ => false

/-- `value instanceof RegExp`. -/
def isRegexpV : JsValue → Bool
  | .regexp _ => true
  | _ => false

/-- `value === undefined`. -/
def isUndefV : JsValue → Bool
  | .undefined => true
  | _ => false

/-- First-match lookup in an object's field list (JavaScript object keys
are unique, so first-match agrees with the object's key map). -/
def lookupField : List (String × JsValue) → String → Option JsValue
  | [], _ => none
  | (k', v') :: rest, k => if k' = k then some v' else lookupField rest k

/-- `o[k] = v` on an object's field list: replace the first binding of
`k`, or append a new binding (JavaScript objects preserve insertion
order of string keys). -/
def setField : List (String × JsValue) → String → JsValue → List (String × JsValue)
  | [], k, v => [(k, v)]
  | (k', v') :: rest, k, v =>
      if k' = k then (k, v) :: rest else (k', v') :: setField rest k v

/-- Property read `o[k]` on a truthy value: objects look the field up
(absent fields read as `undefined`); reads on other truthy primitives
yield `undefined` (built-in properties such as `"x".length` are outside
the values the library's configurations observe). -/
def getMember : JsValue → String → JsValue
  | .obj fs, k =>
      match lookupField fs k with
      | some v => v
      | none => .undefined
  | _, _ => .undefined

/-- `c` is one of the three characters the path regex
`/([^[.\]])+/g` excludes: `'.'`, `'['`, `']'`. -/
def isDelim (c : Char) : Bool := c = '.' || c = '[' || c = ']'

/-- Maximal runs of non-delimiter characters, i.e. the successive
matches of `/([^[.\]])+/g`; `cur` accumulates the current run in
reverse. -/
def runSplitAux : List Char → List Char → List String
  | [], cur => if cur.isEmpty then [] else [String.mk cur.reverse]
  | c :: rest, cur =>
      if isDelim c then
        if cur.isEmpty then runSplitAux rest []
        else String.mk cur.reverse :: runSplitAux rest []
      else runSplitAux rest (c :: cur)

/-- `s.match(/([^[.\]])+/g)`: the list of maximal delimiter-free runs,
`none` when the string has no match at all (JavaScript `match` then
returns `null`). -/
def matchSegs (s : String) : Option (List String) :=
  let segs := runSplitAux s.toList []
  if segs.isEmpty then none else some segs

/-- The `property` argument of the get/set helpers:
`Array<string> | string`. -/
inductive PathArg : Type where
  | arr (a : List String) : PathArg
  | strPath (s : String) : PathArg

/-- JavaScript falsiness of the path argument: arrays are always truthy,
a string is falsy exactly when empty. -/
def pathFalsy : PathArg → Bool
  | .arr _ => false
  | .strPath s => s = ""

/-- `Array.isArray(property) ? property : property.match(/([^[.\]])+/g)`;
`none` models the `null` that `match` returns on a delimiter-only
string (the subsequent `.reduce` then throws a `TypeError`). -/
def pathSegs : PathArg → Option (List String)
  | .arr a => some a
  | .strPath s => matchSegs s

/-- The `reduce` body of `getModelPropertyValue`:
`(prevObj, key) => prevObj && prevObj[key]` folded over the path
(JavaScript `&&` returns the left operand when it is falsy). -/
def walkGet (model : JsValue) (segs : List String) : JsValue :=
  segs.foldl (fun prevObj key => if truthy prevObj then getMember prevObj key else prevObj) model

/-- `getModelPropertyValue(model, property, defaultValue)` of
`fg-dynamic.component.ts` (lines 254-267).  `none` models a thrown
`TypeError` (`null.reduce` when `match` found no segment); `some r`
models a normal return of `r`. -/
def getModelPropertyValue (model : JsValue) (property : PathArg) (defaultValue : JsValue) :
    Option JsValue :=
  if pathFalsy property then some .undefined
  else
    match pathSegs property with
    | none => none
    | some pathArray =>
        let result := walkGet model pathArray
        some (if nullish result then defaultValue else result)

/-- The `if (acc[key] === undefined) acc[key] = {}` normalisation of an
intermediate step: the value passed on for key `k` (an absent or
`undefined` field becomes a fresh empty object). -/
def childAt (fs : List (String × JsValue)) (k : String) : JsValue :=
  match lookupField fs k with
  | some c => if isUndefV c then JsValue.obj [] else c
  | none => JsValue.obj []

/-- The mutating `reduce` of `setModelPropertyValue`, rendered as a
functional update on the value tree: at each step the accumulator must
be an object (reads on `null`/`undefined` throw, strict-mode property
writes on primitives throw — both modelled by `none`); a key holding
`undefined` (or absent) is first replaced by `{}`, and the final key is
overwritten with `value`. -/
def setWalk : JsValue → List String → JsValue → Option JsValue
  | m, [], _ => some m
  | .obj fs, [k], v => some (.obj (setField fs k v))
  | .obj fs, k :: k' :: rest, v =>
      (setWalk (childAt fs k) (k' :: rest) v).map (fun child' => .obj (setField fs k child'))
  | _, _ :: _, _ => none

/-- `setModelPropertyValue(model, property, value)` of
`fg-dynamic.component.ts` (lines 269-283); `none` models a thrown
`TypeError`, `some m'` the mutated model. -/
def setModelPropertyValue (model : JsValue) (property : PathArg) (value : JsValue) :
    Option JsValue :=
  match pathSegs property with
  | none => none
  | some pathArray => setWalk model pathArray value

/-- Structural lookup used as the observation function in the theorems:
follow the keys through objects, `none` when a key is absent or the
current value is not an object. -/
def structLookup : JsValue → List String → Option JsValue
  | m, [] => some m
  | .obj fs, k :: rest =>
      match lookupField fs k with
      | some v => structLookup v rest
      | none => none
  | _, _ :: _ => none

/-- `some (.obj _)`? -/
def isObjOpt : Option JsValue → Bool
  | some (.obj _) => true
  | _ => false

/-- `pat` matches at the head of the second list. -/
def leadMatches : List Char → List Char → Bool
  | [], _ => true
  | _ :: _, [] => false
  | p :: ps, c :: cs => (p = c) && leadMatches ps cs

/-- `pat` occurs somewhere in the list. -/
def containsChars (pat : List Char) : List Char → Bool
  | [] => pat.isEmpty
  | c :: rest => leadMatches pat (c :: rest) || containsChars pat rest

/-- `s.includes(pat)`. -/
def strIncludes (s pat : String) : Bool := containsChars pat.toList s.toList

/-- `evaluateExpression(value, $vm, $event)` (lines 313-319): the first
component is the returned value, the second records whether `eval` was
invoked.  `eval`'s environment-dependent result is supplied by the
total `oracle`; `vmVal` is the current value `$vm()` of the view-model
signal and `eventVal` the `$event` argument (`undefined` when the
caller omits it). -/
def evaluateExpression (oracle : String → JsValue) (value : JsValue) (vmVal : JsValue)
    (eventVal : JsValue) : JsValue × Bool :=
  match value with
  | .str s =>
      if (strIncludes s "$vm" && !nullish vmVal) || (strIncludes s "$event" && !nullish eventVal)
      then (oracle s, true)
      else (.str s, false)
  | v => (v, false)

/-- The identity of a registered component class (`Type<unknown>`),
abstracted to a tag. -/
abbrev CompType := Nat

/-- The static `FGDynamicService._components` record. -/
structure FGRegistry : Type where
  components : List (String × CompType)

/-- Lookup in the registry's record (first binding, as for objects). -/
def lookupComp : List (String × CompType) → String → Option CompType
  | [], _ => none
  | (k', v') :: rest, k => if k' = k then some v' else lookupComp rest k

/-- Overwrite-or-append on the registry's record. -/
def setComp : List (String × CompType) → String → CompType → List (String × CompType)
  | [], k, v => [(k, v)]
  | (k', v') :: rest, k, v =>
      if k' = k then (k, v) :: rest else (k', v') :: setComp rest k v

/-- `FGDynamicService.registerComponent(name, type)` (lines 26-30):
stores the type under the name only when both are truthy (the `type`
argument is `Option`al to model a `null`/`undefined` argument). -/
def registerComponent (r : FGRegistry) (name : String) (ty : Option CompType) : FGRegistry :=
  match ty with
  | none => r
  | some t => if name = "" then r else { components := setComp r.components name t }

/-- `FGDynamicService.getComponentByName(name)` (lines 32-34);
`none` is the `undefined` an absent key reads as. -/
def getComponentByName (r : FGRegistry) (name : String) : Option CompType :=
  lookupComp r.components name

/-- The configuration's `type` field when non-null:
a string key, a component class, or a promise of one. -/
inductive CfgType : Type where
  | byName (s : String) : CfgType
  | ctor (c : CompType) : CfgType
  | promiseOf (c : CompType) : CfgType

/-- The mutable private fields of one `FGDynamicComponent` instance that
the claims observe: the resolved `_component`, whether `_componentRef`
exists, and the created `_formControl` (carrying its initial value). -/
structure CompState : Type where
  component : Option CompType
  componentRef : Bool
  formControl : Option JsValue

/-- The fresh instance: nothing resolved, created or registered. -/
def initState : CompState := ⟨none, false, none⟩

/-- Everything one `ngOnChanges` round reads from outside the instance:
the current `configuration()` fields (an absent optional field is
`none`, i.e. `undefined`), the current `viewModel()` value, whether the
`formGroup` input and the `viewContainer` are available, the service
registry and the `eval` oracle. -/
structure Env : Type where
  registry : FGRegistry
  cfgType : Option CfgType
  inputs : Option (List (String × JsValue))
  attributesC : Option (List (String × JsValue))
  outputs : Option (List (String × JsValue))
  hidden : Option JsValue
  disabled : Option JsValue
  modelProperty : Option String
  cfgMin : Option JsValue
  cfgMax : Option JsValue
  cfgRequired : Option JsValue
  cfgEmail : Option JsValue
  cfgMinLength : Option JsValue
  cfgMaxLength : Option JsValue
  cfgPattern : Option JsValue
  viewModel : JsValue
  formGroup : Bool
  viewContainer : Bool
  oracle : String → JsValue

/-- One validator pushed by `setFormControlValidators`, with the value
it was applied to. -/
inductive VKind : Type where
  | vmin (v : JsValue) : VKind
  | vmax (v : JsValue) : VKind
  | vrequired : VKind
  | vemail : VKind
  | vmaxLength (v : JsValue) : VKind
  | vminLength (v : JsValue) : VKind
  | vpattern (v : JsValue) : VKind

/-- Observable actions of one `ngOnChanges` round: resolving and
storing a component class, instantiating it into the container, adding
a form control to the group, subscribing to outputs, and the per-round
re-applications (inputs, DOM attributes, visibility style, control
enable/disable, validators). -/
inductive Effect : Type where
  | resolveStore (c : CompType) : Effect
  | create : Effect
  | outputsSubscribed : Effect
  | addControl (name : String) (initial : JsValue) : Effect
  | setInput (name : String) (v : JsValue) : Effect
  | setAttr (name : String) (v : JsValue) : Effect
  | setStyleHidden (hidden : Bool) : Effect
  | controlStatus (disabled : Bool) : Effect
  | setValidators (vs : List VKind) : Effect

/-- Reading an optional configuration field: an absent field reads as
`undefined`. -/
def cfgField (o : Option JsValue) : JsValue := o.getD .undefined

/-- JavaScript `ToNumber` restricted to the modelled values (`none` is
`NaN`): `undefined → NaN`, `null → 0`, booleans to `0`/`1`, strings by
parsing an optional-sign decimal integer literal (`"" → 0`), objects
and regular expressions to `NaN`. -/
def jsToNumber : JsValue → Option Int
  | .undefined => none
  | .null => some 0
  | .bool b => some (if b then 1 else 0)
  | .num n => some n
  | .str s =>
      if s = "" then some 0
      else
        match s.toList with
        | '-' :: rest => if rest ≠ [] ∧ rest.all Char.isDigit
                         then some (-(String.mk rest).toNat!) else none
        | l => if l.all Char.isDigit then some (String.mk l).toNat! else none
  | .regexp _ => none
  | .obj _ => none

/-- The JavaScript comparison `v > 0` (false when `v` converts to
`NaN`). -/
def jsGtZero (v : JsValue) : Bool :=
  match jsToNumber v with
  | some n => n > 0
  | none => false

/-- `v === true`. -/
def isTrueV : JsValue → Bool
  | .bool b => b
  | _ => false

/-- The validator list built by `setFormControlValidators`
(lines 178-231) once its guard has passed, in push order; each
configured field is first run through `evaluateExpression` against the
view model.  Note: at line 219 the source computes the `pattern`
candidate from `this.configuration().minLength`, not from
`this.configuration().pattern` — the transcription keeps that
behaviour. -/
def computeValidators (env : Env) : List VKind :=
  let evalF := fun (o : Option JsValue) => (evaluateExpression env.oracle (cfgField o) env.viewModel .undefined).1
  let minV := evalF env.cfgMin
  let maxV := evalF env.cfgMax
  let requiredV := evalF env.cfgRequired
  let emailV := evalF env.cfgEmail
  let maxLengthV := evalF env.cfgMaxLength
  let minLengthV := evalF env.cfgMinLength
  let patternV := evalF env.cfgMinLength
  (if isNumV minV then [VKind.vmin minV] else []) ++
  (if isNumV maxV then [VKind.vmax maxV] else []) ++
  (if isTrueV requiredV then [VKind.vrequired] else []) ++
  (if isTrueV emailV then [VKind.vemail] else []) ++
  (if jsGtZero maxLengthV then [VKind.vmaxLength maxLengthV] else []) ++
  (if jsGtZero minLengthV then [VKind.vminLength minLengthV] else []) ++
  (if isStrV patternV || isRegexpV patternV then [VKind.vpattern patternV] else [])

/-- Truthiness of the optional `modelProperty` string field. -/
def strOptTruthy : Option String → Bool
  | some s => s ≠ ""
  | none => false

/-- `loadComponentAsync()` (lines 78-86): when the configured `type` is
non-null and no component is stored yet, a string key is looked up in
the `FGDynamicService` registry, any other `type` (a class or a promise
of one) is awaited; the promise is modelled as resolving to its
payload.  A `resolveStore` effect is emitted when a (truthy) component
class ends up stored. -/
def loadComponentAsync (env : Env) (st : CompState) : CompState × List Effect :=
  if env.cfgType.isSome && st.component.isNone then
    match env.cfgType with
    | some (.byName s) =>
        ({ st with component := getComponentByName env.registry s },
         (getComponentByName env.registry s).elim [] (fun c => [.resolveStore c]))
    | some (.ctor c) => ({ st with component := some c }, [.resolveStore c])
    | some (.promiseOf c) => ({ st with component := some c }, [.resolveStore c])
    | none => (st, [])
  else (st, [])

/-- `createFormControl()` (lines 137-158): when the `formGroup` input,
a truthy `modelProperty` and a truthy view model are all present, a
`FormControl` is constructed with
`getModelPropertyValue(viewModel(), modelProperty, null)` as its
initial value and added to the group under `modelProperty`.  The
boolean result flags a thrown `TypeError` (from the path lookup),
which aborts the surrounding `ngOnChanges` round.  The installed
`valueChanges` subscription is modelled by `valueChangesHandler`
below. -/
def createFormControl (env : Env) (st : CompState) : CompState × List Effect × Bool :=
  if env.formGroup && strOptTruthy env.modelProperty && truthy env.viewModel then
    match getModelPropertyValue env.viewModel (.strPath (env.modelProperty.getD "")) .null with
    | none => (st, [], true)
    | some init =>
        ({ st with formControl := some init },
         [.addControl (env.modelProperty.getD "") init], false)
  else (st, [], false)

/-- `createComponent()` (lines 88-102): when a component class is
stored, no reference exists yet and the view container is available,
the component is instantiated (`create` effect), outputs are
subscribed when the configuration has an `outputs` record
(`handleOutputs`), and `createFormControl` runs.  `markForCheck` and
`removeHostElement` touch only change detection and the DOM and emit no
modelled effect. -/
def createComponent (env : Env) (st : CompState) : CompState × List Effect × Bool :=
  if st.component.isSome && !st.componentRef && env.viewContainer then
    let r := createFormControl env { st with componentRef := true }
    (r.1,
     Effect.create :: ((if env.outputs.isSome then [Effect.outputsSubscribed] else []) ++ r.2.1),
     r.2.2)
  else (st, [], false)

/-- `setInputs()` (lines 285-291): with an `inputs` record and a
component reference, each configured input is set to its value
evaluated against the view model. -/
def setInputs (env : Env) (st : CompState) : List Effect :=
  if env.inputs.isSome && st.componentRef then
    (env.inputs.getD []).map
      (fun kv => .setInput kv.1 (evaluateExpression env.oracle kv.2 env.viewModel .undefined).1)
  else []

/-- `setAttributes()` (lines 293-299). -/
def setAttributes (env : Env) (st : CompState) : List Effect :=
  if env.attributesC.isSome && st.componentRef then
    (env.attributesC.getD []).map
      (fun kv => .setAttr kv.1 (evaluateExpression env.oracle kv.2 env.viewModel .undefined).1)
  else []

/-- `setVisibility()` (lines 301-311). -/
def setVisibility (env : Env) (st : CompState) : List Effect :=
  if env.hidden.isSome && st.componentRef then
    [.setStyleHidden (truthy (evaluateExpression env.oracle (cfgField env.hidden) env.viewModel .undefined).1)]
  else []

/-- `setFormControlStatus()` (lines 160-176). -/
def setFormControlStatus (env : Env) (st : CompState) : List Effect :=
  if st.formControl.isSome && env.disabled.isSome then
    [.controlStatus (truthy (evaluateExpression env.oracle (cfgField env.disabled) env.viewModel .undefined).1)]
  else []

/-- `setFormControlValidators()`'s outer guard (line 179:
`this._formControl && this.configuration()` — the configuration input
is required, hence always truthy). -/
def setFormControlValidators (env : Env) (st : CompState) : List Effect :=
  if st.formControl.isSome then [.setValidators (computeValidators env)] else []

/-- One `ngOnChanges()` round (lines 68-76): load, create, then
re-apply inputs, attributes, visibility, control status and
validators; a `TypeError` thrown inside `createComponent` aborts the
remaining calls (the state mutated so far persists). -/
def ngOnChangesStep (env : Env) (st0 : CompState) : CompState × List Effect :=
  let r1 := loadComponentAsync env st0
  let r2 := createComponent env r1.1
  if r2.2.2 then (r2.1, r1.2 ++ r2.2.1)
  else
    (r2.1, r1.2 ++ r2.2.1 ++ setInputs env r2.1 ++ setAttributes env r2.1 ++
      setVisibility env r2.1 ++ setFormControlStatus env r2.1 ++ setFormControlValidators env r2.1)

/-- The per-round effect lists of a sequence of `ngOnChanges`
invocations on one instance. -/
def ngOnChangesTrace : List Env → CompState → List (List Effect)
  | [], _ => []
  | e :: rest, st => (ngOnChangesStep e st).2 :: ngOnChangesTrace rest (ngOnChangesStep e st).1

/-- The state after a sequence of `ngOnChanges` invocations. -/
def runEnvs (envs : List Env) (st : CompState) : CompState :=
  envs.foldl (fun s e => (ngOnChangesStep e s).1) st

/-- `structuredClone`: a deep clone of a pure value tree is the tree
itself in the functional embedding (the clone's purpose — leaving the
original object unmutated — is what the functional `setWalk` update
guarantees by construction). -/
def structuredClone (v : JsValue) : JsValue := v

/-- The `formGroup().valueChanges` subscription body installed by
`createFormControl` (lines 144-154): read the group's raw value, look
the registered `modelProperty` up in it (with default `null`), clone
the current view model, set the property there and emit the clone as
the new view-model signal value.  `none` models both a falsy raw value
(no update) and a thrown `TypeError`; `some vm'` is the value the
signal is set to. -/
def valueChangesHandler (p : String) (raw : JsValue) (oldVm : JsValue) : Option JsValue :=
  if truthy raw then
    match getModelPropertyValue raw (.strPath p) .null with
    | none => none
    | some value => setModelPropertyValue (structuredClone oldVm) (.strPath p) value
  else none

/-- An environment whose configuration has no optional field set, no
form group and no container; concrete environments below override the
fields they need. -/
def defaultEnv : Env where
  registry := ⟨[]⟩
  cfgType := none
  inputs := none
  attributesC := none
  outputs := none
  hidden := none
  disabled := none
  modelProperty := none
  cfgMin := none
  cfgMax := none
  cfgRequired := none
  cfgEmail := none
  cfgMinLength := none
  cfgMaxLength := none
  cfgPattern := none
  viewModel := JsValue.obj []
  formGroup := false
  viewContainer := false
  oracle := fun _ => JsValue.undefined

/-- The environment exhibiting the `pattern`-validator slip: the
configuration's `pattern` field is the string `"[a-z]+"`, its
`minLength` field is absent. -/
def patternEnv : Env := { defaultEnv with cfgPattern := some (JsValue.str "[a-z]+") }

/-- A registry binding the key `"input"`, and a configuration whose
`type` is that string key. -/
def byNameEnv : Env :=
  { defaultEnv with
      registry := ⟨[("input", 5)]⟩
      cfgType := some (CfgType.byName "input") }

/-- A configuration with a one-entry `inputs` record. -/
def labelEnv : Env :=
  { defaultEnv with inputs := some [("label", JsValue.str "Name")] }

/-- The state of an instance that already holds a component
reference. -/
def refState : CompState := { initState with componentRef := true }

/-- An environment with a form group, a nested `modelProperty` path and
a matching view model. -/
def fgEnv : Env :=
  { defaultEnv with
      formGroup := true
      modelProperty := some "user.name"
      viewModel := JsValue.obj [("user", JsValue.obj [("name", JsValue.str "Bob")])] }

/-- An environment that resolves a component class directly and has a
view container and one configured input. -/
def ctorEnv : Env :=
  { defaultEnv with
      cfgType := some (CfgType.ctor 3)
      viewContainer := true
      inputs := some [("label", JsValue.str "Name")] }

/-- The effect classifiers used by the `ngOnChanges` trace theorems. -/
def isResolveB : Effect → Bool
  | .resolveStore _ => true
  | _ => false

/-- Is this effect the instantiation of the dynamic component? -/
def isCreateB : Effect → Bool
  | .create => true
  | _ => false

/-- Is this effect one of the per-round re-applications (inputs,
attributes, visibility, control status, validators)? -/
def isReapplyB : Effect → Bool
  | .setInput _ _ => true
  | .setAttr _ _ => true
  | .setStyleHidden _ => true
  | .controlStatus _ => true
  | .setValidators _ => true
  | _ => false

section Lemmas

theorem lookupComp_setComp_self (l : List (String × CompType)) (k : String) (v : CompType) :
    lookupComp (setComp l k v) k = some v := by
  induction l with
  | nil => simp [setComp, lookupComp]
  | cons hd tl ih =>
      obtain ⟨k', v'⟩ := hd
      by_cases h : k' = k
      · simp [setComp, h, lookupComp]
      · simp [setComp, h, lookupComp, ih]

theorem lookupComp_setComp_ne (l : List (String × CompType)) (k k' : String) (v : CompType)
    (h : k ≠ k') : lookupComp (setComp l k' v) k = lookupComp l k := by
  induction l with
  | nil => simp [setComp, lookupComp, Ne.symm h]
  | cons hd tl ih =>
      obtain ⟨k₀, v₀⟩ := hd
      by_cases h0 : k₀ = k'
      · subst h0
        simp [setComp, lookupComp, Ne.symm h]
      · by_cases h1 : k₀ = k
        · simp [setComp, h0, lookupComp, h1, h]
        · simp [setComp, h0, lookupComp, h1, ih]

end Lemmas

/-- **C10.** For every non-empty name and component type,
`FGDynamicService.getComponentByName` returns the type most recently
passed to `registerComponent` under that name (conjuncts 4 and 5:
last registration wins and registrations under other names do not
interfere); registering with an empty name or a `null`/`undefined`
type leaves the registry unchanged (conjuncts 1 and 2), and a lookup
in an untouched registry returns what was stored before — `undefined`
when nothing was (conjunct 3). -/
theorem registry_register_lookup (r : FGRegistry) (n n' : String) (t : CompType)
    (ty : Option CompType) :
    (registerComponent r n none = r) ∧
    (registerComponent r "" ty = r) ∧
    (getComponentByName ⟨[]⟩ n = none) ∧
    (n ≠ "" → getComponentByName (registerComponent r n (some t)) n = some t) ∧
    (n ≠ n' → getComponentByName (registerComponent r n' ty) n = getComponentByName r n) := by
  refine ⟨rfl, ?_, rfl, ?_, ?_⟩
  · cases ty <;> simp [registerComponent]
  · intro hn
    simp [registerComponent, hn, getComponentByName, lookupComp_setComp_self]
  · intro hne
    cases ty with
    | none => rfl
    | some t' =>
        by_cases h0 : n' = ""
        · simp [registerComponent, h0]
        · simp [registerComponent, h0, getComponentByName, lookupComp_setComp_ne _ _ _ _ hne]

/-- Witness for `registry_register_lookup` at a concrete registry. -/
theorem registry_register_lookup_witness :
    ("x" : String) ≠ "" ∧
    getComponentByName (registerComponent ⟨[("a", 1)]⟩ "x" (some 2)) "x" = some 2 :=
  ⟨by decide, (registry_register_lookup ⟨[("a", 1)]⟩ "x" "y" 2 (some 3)).2.2.2.1 (by decide)⟩

/-- **C7.** `evaluateExpression` returns its argument unchanged and
never invokes `eval` unless the argument is a string containing
`"$vm"` while the view-model signal value is non-null, or containing
`"$event"` while a non-null event is supplied: conjunct 1 covers every
non-string value, conjunct 2 every string mentioning neither
substring, conjunct 3 the general negated guard. -/
theorem evaluateExpression_identity (oracle : String → JsValue) (value vmVal eventVal : JsValue) :
    (isStrV value = false → evaluateExpression oracle value vmVal eventVal = (value, false)) ∧
    (∀ s, value = JsValue.str s → strIncludes s "$vm" = false → strIncludes s "$event" = false →
      evaluateExpression oracle value vmVal eventVal = (value, false)) ∧
    (∀ s, value = JsValue.str s →
      (strIncludes s "$vm" = false ∨ nullish vmVal = true) →
      (strIncludes s "$event" = false ∨ nullish eventVal = true) →
      evaluateExpression oracle value vmVal eventVal = (value, false)) := by
  refine ⟨?_, ?_, ?_⟩
  · intro h
    cases value <;> simp_all [isStrV, evaluateExpression]
  · intro s hs h1 h2
    subst hs
    simp [evaluateExpression, h1, h2]
  · intro s hs h1 h2
    subst hs
    rcases h1 with h1 | h1 <;> rcases h2 with h2 | h2 <;>
      simp [evaluateExpression, h1, h2]

/-- Witness for `evaluateExpression_identity`: the string `"title"`
mentions neither `"$vm"` nor `"$event"` and is returned as-is without
invoking `eval`. -/
theorem evaluateExpression_identity_witness :
    strIncludes "title" "$vm" = false ∧
    evaluateExpression (fun _ => JsValue.null) (JsValue.str "title") (JsValue.obj []) JsValue.undefined =
      (JsValue.str "title", false) :=
  ⟨by decide,
   (evaluateExpression_identity (fun _ => JsValue.null) (JsValue.str "title") (JsValue.obj [])
      JsValue.undefined).2.1 "title" rfl (by decide) (by decide)⟩

/-- **C1.** When the configured `type` is non-null and no component is
stored yet, `loadComponentAsync` stores the resolved implementation: a
string key is looked up in the `FGDynamicService` registry, and a
class or a promise of one is awaited, its result becoming the resolved
component. -/
theorem loadComponentAsync_resolves (env : Env) (st : CompState) (t : CfgType)
    (hty : env.cfgType = some t) (hnone : st.component = none) :
    (loadComponentAsync env st).1.component =
      (match t with
       | .byName s => getComponentByName env.registry s
       | .ctor c => some c
       | .promiseOf c => some c) := by
  cases t <;> simp [loadComponentAsync, hty, hnone]

/-- Witness for `loadComponentAsync_resolves`: a registry holding
`"input"` resolves that string key. -/
theorem loadComponentAsync_resolves_witness :
    byNameEnv.cfgType = some (CfgType.byName "input") ∧
    initState.component = none ∧
    (loadComponentAsync byNameEnv initState).1.component = some 5 :=
  ⟨rfl, rfl, loadComponentAsync_resolves byNameEnv initState (CfgType.byName "input") rfl rfl⟩

/-- **C9.** With an `inputs` record configured and a component instance
created, `setInputs` emits exactly one input assignment per record
entry, assigning the expression-evaluated value (second conjunct), so
an input is set if and only if its name carries some configured value
(first conjunct) — inputs not named in the record are not set. -/
theorem setInputs_exactly_configured (env : Env) (st : CompState)
    (ins : List (String × JsValue)) (hin : env.inputs = some ins) (href : st.componentRef = true) :
    (∀ k v, Effect.setInput k v ∈ setInputs env st ↔
      ∃ raw, (k, raw) ∈ ins ∧ v = (evaluateExpression env.oracle raw env.viewModel .undefined).1) ∧
    setInputs env st =
      ins.map (fun kv => .setInput kv.1 (evaluateExpression env.oracle kv.2 env.viewModel .undefined).1) := by
  have heq : setInputs env st =
      ins.map (fun kv => .setInput kv.1 (evaluateExpression env.oracle kv.2 env.viewModel .undefined).1) := by
    simp [setInputs, hin, href]
  refine ⟨?_, heq⟩
  intro k v
  rw [heq]
  constructor
  · intro hmem
    rcases List.mem_map.mp hmem with ⟨⟨k', raw⟩, hkr, heff⟩
    simp only [Effect.setInput.injEq] at heff
    exact ⟨raw, heff.1 ▸ hkr, heff.2.symm⟩
  · rintro ⟨raw, hkr, rfl⟩
    exact List.mem_map.mpr ⟨(k, raw), hkr, rfl⟩

/-- Witness for `setInputs_exactly_configured` at a one-entry record. -/
theorem setInputs_exactly_configured_witness :
    labelEnv.inputs = some [("label", JsValue.str "Name")] ∧
    refState.componentRef = true ∧
    setInputs labelEnv refState = [Effect.setInput "label" (JsValue.str "Name")] :=
  ⟨rfl, rfl,
   (setInputs_exactly_configured labelEnv refState [("label", JsValue.str "Name")] rfl rfl).2⟩

/-- **C5.** The `pattern` validator slip, evaluated at the failing
input: the configuration's `pattern` field holds the string
`"[a-z]+"` (a value `Validators.pattern` accepts), yet
`setFormControlValidators` pushes no validator at all, because line
219 of `fg-dynamic.component.ts` evaluates
`this.configuration().minLength` — absent here — where the `pattern`
field was intended (the variant implementations read the pattern
attribute, and the value is bound to a constant named `pattern`). -/
theorem pattern_validator_reads_wrong_field :
    patternEnv.cfgPattern = some (JsValue.str "[a-z]+") ∧
    computeValidators patternEnv = [] :=
  ⟨rfl, rfl⟩

theorem matchSegs_empty : matchSegs "" = none := rfl

theorem matchSegs_ne_empty {s : String} {segs : List String} (h : matchSegs s = some segs) :
    s ≠ "" := by
  intro hs
  rw [hs, matchSegs_empty] at h
  exact Option.noConfusion h

theorem getModelPropertyValue_eq_of_segs (m : JsValue) (s : String) (segs : List String)
    (d : JsValue) (hsegs : matchSegs s = some segs) :
    getModelPropertyValue m (.strPath s) d =
      some (if nullish (walkGet m segs) then d else walkGet m segs) := by
  simp [getModelPropertyValue, pathFalsy, matchSegs_ne_empty hsegs, pathSegs, hsegs]

/-- **C4 counterexample.** The claim asserts that for every non-empty
string path the function splits, walks and returns the default or the
resolved value; but at the non-empty path `"."` (made only of
delimiter characters) `match` returns `null` and the `reduce` call
throws a `TypeError`, so nothing is returned at all. -/
theorem getModelPropertyValue_dot_path_throws :
    pathFalsy (PathArg.strPath ".") = false ∧
    getModelPropertyValue (JsValue.obj [("a", JsValue.num 1)]) (PathArg.strPath ".")
      (JsValue.num 7) = none :=
  ⟨rfl, rfl⟩

/-- **C4 (amended).** `getModelPropertyValue` returns `undefined` for a
falsy path (conjunct 1); for a non-empty string path that `match`
splits into at least one delimiter-free segment it walks the model one
segment at a time (`walkGet`, the `prevObj && prevObj[key]` reduce)
and returns the default exactly when the walk resolves to `null` or
`undefined`, the resolved value otherwise (conjunct 2); an array path
is used as-is (conjunct 3).  A non-empty string path with no segment
at all throws instead (see the counterexample). -/
theorem getModelPropertyValue_spec (m : JsValue) (s : String) (segs a : List String)
    (d : JsValue) :
    (getModelPropertyValue m (.strPath "") d = some JsValue.undefined) ∧
    (matchSegs s = some segs →
      getModelPropertyValue m (.strPath s) d =
        some (if nullish (walkGet m segs) then d else walkGet m segs)) ∧
    (getModelPropertyValue m (.arr a) d =
      some (if nullish (walkGet m a) then d else walkGet m a)) := by
  refine ⟨rfl, fun h => getModelPropertyValue_eq_of_segs m s segs d h, ?_⟩
  simp [getModelPropertyValue, pathFalsy, pathSegs]

/-- Witness for `getModelPropertyValue_spec` at the nested path
`"user.name"`. -/
theorem getModelPropertyValue_spec_witness :
    matchSegs "user.name" = some ["user", "name"] ∧
    getModelPropertyValue (JsValue.obj [("user", JsValue.obj [("name", JsValue.str "Bob")])])
      (PathArg.strPath "user.name") (JsValue.num 9) = some (JsValue.str "Bob") :=
  ⟨by decide,
   (getModelPropertyValue_spec (JsValue.obj [("user", JsValue.obj [("name", JsValue.str "Bob")])])
      "user.name" ["user", "name"] [] (JsValue.num 9)).2.1 (by decide)⟩

/-- **C2.** With a form group input present, a configured
`modelProperty` naming a property path and a truthy view model,
`createFormControl` constructs the form control with the view model's
value at that path as initial value — `null` when the path resolves to
`null` or `undefined` — and adds it to the group keyed by the
configured name. -/
theorem createFormControl_adds_control (env : Env) (st : CompState) (p : String)
    (segs : List String) (hfg : env.formGroup = true) (hp : env.modelProperty = some p)
    (hsegs : matchSegs p = some segs) (hvm : truthy env.viewModel = true) :
    createFormControl env st =
      ({ st with formControl := some (if nullish (walkGet env.viewModel segs) then JsValue.null
                                      else walkGet env.viewModel segs) },
       [Effect.addControl p (if nullish (walkGet env.viewModel segs) then JsValue.null
                             else walkGet env.viewModel segs)],
       false) := by
  have hget := getModelPropertyValue_eq_of_segs env.viewModel p segs JsValue.null hsegs
  simp [createFormControl, hfg, hp, strOptTruthy, matchSegs_ne_empty hsegs, hvm, hget]

theorem lookupField_setField_self (fs : List (String × JsValue)) (k : String) (v : JsValue) :
    lookupField (setField fs k v) k = some v := by
  induction fs with
  | nil => simp [setField, lookupField]
  | cons hd tl ih =>
      obtain ⟨k', v'⟩ := hd
      by_cases h : k' = k
      · simp [setField, h, lookupField]
      · simp [setField, h, lookupField, ih]

theorem lookupField_setField_ne (fs : List (String × JsValue)) (k k' : String) (v : JsValue)
    (h : k ≠ k') : lookupField (setField fs k' v) k = lookupField fs k := by
  induction fs with
  | nil => simp [setField, lookupField, Ne.symm h]
  | cons hd tl ih =>
      obtain ⟨k₀, v₀⟩ := hd
      by_cases h0 : k₀ = k'
      · subst h0
        simp [setField, lookupField, Ne.symm h]
      · by_cases h1 : k₀ = k
        · simp [setField, h0, lookupField, h1, h]
        · simp [setField, h0, lookupField, h1, ih]

theorem walkGet_cons (m : JsValue) (k : String) (t : List String) :
    walkGet m (k :: t) = walkGet (if truthy m then getMember m k else m) t := rfl

theorem setWalk_isObj {k : String} {rest : List String} {m m' v : JsValue}
    (h : setWalk m (k :: rest) v = some m') : ∃ gs, m' = JsValue.obj gs := by
  cases m with
  | obj fs =>
      cases rest with
      | nil =>
          simp [setWalk] at h
          exact ⟨_, h.symm⟩
      | cons k' rest' =>
          simp only [setWalk] at h
          rcases Option.map_eq_some'.mp h with ⟨c', _, rfl⟩
          exact ⟨_, rfl⟩
  | undefined => simp [setWalk] at h
  | null => simp [setWalk] at h
  | bool b => simp [setWalk] at h
  | num n => simp [setWalk] at h
  | str s => simp [setWalk] at h
  | regexp s => simp [setWalk] at h

theorem setWalk_walkGet (segs : List String) :
    ∀ m m' v : JsValue, setWalk m segs v = some m' → segs ≠ [] → walkGet m' segs = v := by
  induction segs with
  | nil => exact fun m m' v _ hne => absurd rfl hne
  | cons k rest ih =>
      intro m m' v h _
      cases m with
      | obj fs =>
          cases rest with
          | nil =>
              simp [setWalk] at h
              subst h
              simp [walkGet, truthy, getMember, lookupField_setField_self]
          | cons k' rest' =>
              simp only [setWalk] at h
              rcases Option.map_eq_some'.mp h with ⟨c', hsw, rfl⟩
              rw [walkGet_cons]
              simp only [truthy, if_true, getMember, lookupField_setField_self]
              exact ih _ c' v hsw (by simp)
      | undefined => simp [setWalk] at h
      | null => simp [setWalk] at h
      | bool b => simp [setWalk] at h
      | num n => simp [setWalk] at h
      | str s => simp [setWalk] at h
      | regexp s => simp [setWalk] at h

theorem setWalk_prefix_obj (segs : List String) :
    ∀ m m' v : JsValue, setWalk m segs v = some m' →
      ∀ i : Nat, i + 1 < segs.length →
        isObjOpt (structLookup m' (segs.take (i + 1))) = true := by
  induction segs with
  | nil => intro m m' v _ i hi; simp at hi
  | cons k rest ih =>
      intro m m' v h i hi
      cases rest with
      | nil => simp at hi
      | cons k' rest' =>
          cases m with
          | obj fs =>
              simp only [setWalk] at h
              rcases Option.map_eq_some'.mp h with ⟨c', hsw, rfl⟩
              cases i with
              | zero =>
                  rcases setWalk_isObj hsw with ⟨gs, rfl⟩
                  simp [structLookup, lookupField_setField_self, isObjOpt]
              | succ j =>
                  have hlen : j + 1 < (k' :: rest').length := by
                    simpa using Nat.lt_of_succ_lt_succ hi
                  have htail := ih _ c' v hsw j hlen
                  simpa [List.take, structLookup, lookupField_setField_self] using htail
          | undefined => simp [setWalk] at h
          | null => simp [setWalk] at h
          | bool b => simp [setWalk] at h
          | num n => simp [setWalk] at h
          | str s => simp [setWalk] at h
          | regexp s => simp [setWalk] at h

/-- **C3.** For every model and non-empty path on which
`setModelPropertyValue` succeeds (i.e. every already-present
intermediate is an object — on anything else the mutating reduce
throws) and every non-null value `v`: a subsequent
`getModelPropertyValue` with any default `d` returns `v` (conjunct 1),
and after the write every proper non-empty prefix of the path resolves
to an object — the missing intermediates having been created as empty
objects before the final segment was written (conjunct 2). -/
theorem set_then_get_roundtrip (m m' v d : JsValue) (property : PathArg) (segs : List String)
    (hsegs : pathSegs property = some segs) (hne : segs ≠ [])
    (hset : setModelPropertyValue m property v = some m') (hv : nullish v = false) :
    getModelPropertyValue m' property d = some v ∧
    ∀ i : Nat, i + 1 < segs.length → isObjOpt (structLookup m' (segs.take (i + 1))) = true := by
  have hsw : setWalk m segs v = some m' := by
    unfold setModelPropertyValue at hset
    rw [hsegs] at hset
    exact hset
  have hwg := setWalk_walkGet segs m m' v hsw hne
  refine ⟨?_, fun i hi => setWalk_prefix_obj segs m m' v hsw i hi⟩
  cases property with
  | arr a =>
      have ha : a = segs := by
        simpa [pathSegs] using hsegs
      subst ha
      simp [getModelPropertyValue, pathFalsy, pathSegs, hwg, hv]
  | strPath s =>
      rw [getModelPropertyValue_eq_of_segs m' s segs d hsegs, hwg, hv]
      simp

/-- Witness for `set_then_get_roundtrip`: writing `7` at `"a.b.c"`
creates the missing `"b"` level and reads back `7`. -/
theorem set_then_get_roundtrip_witness :
    pathSegs (PathArg.strPath "a.b.c") = some ["a", "b", "c"] ∧
    setModelPropertyValue (JsValue.obj [("a", JsValue.obj [("x", JsValue.num 1)])])
      (PathArg.strPath "a.b.c") (JsValue.num 7) =
      some (JsValue.obj [("a", JsValue.obj [("x", JsValue.num 1),
        ("b", JsValue.obj [("c", JsValue.num 7)])])]) ∧
    getModelPropertyValue
      (JsValue.obj [("a", JsValue.obj [("x", JsValue.num 1),
        ("b", JsValue.obj [("c", JsValue.num 7)])])])
      (PathArg.strPath "a.b.c") (JsValue.str "dflt") = some (JsValue.num 7) :=
  ⟨by decide, rfl,
   (set_then_get_roundtrip (JsValue.obj [("a", JsValue.obj [("x", JsValue.num 1)])])
      (JsValue.obj [("a", JsValue.obj [("x", JsValue.num 1),
        ("b", JsValue.obj [("c", JsValue.num 7)])])])
      (JsValue.num 7) (JsValue.str "dflt") (PathArg.strPath "a.b.c") ["a", "b", "c"]
      (by decide) (by decide) rfl rfl).1⟩

/-- Witness for `createFormControl_adds_control`: the view model value
`"Bob"` at `"user.name"` becomes the control's initial value. -/
theorem createFormControl_adds_control_witness :
    fgEnv.formGroup = true ∧
    fgEnv.modelProperty = some "user.name" ∧
    matchSegs "user.name" = some ["user", "name"] ∧
    createFormControl fgEnv initState =
      ({ initState with formControl := some (JsValue.str "Bob") },
       [Effect.addControl "user.name" (JsValue.str "Bob")], false) :=
  ⟨rfl, rfl, by decide,
   createFormControl_adds_control fgEnv initState "user.name" ["user", "name"] rfl rfl
     (by decide) rfl⟩

theorem runSplitAux_nodelim (l : List Char) :
    ∀ cur : List Char, (∀ c ∈ l, isDelim c = false) →
      runSplitAux l cur =
        if cur.reverse ++ l = [] then [] else [String.mk (cur.reverse ++ l)] := by
  induction l with
  | nil =>
      intro cur _
      cases cur <;> simp [runSplitAux]
  | cons c rest ih =>
      intro cur hnd
      have hc : isDelim c = false := hnd c (by simp)
      rw [show runSplitAux (c :: rest) cur = runSplitAux rest (c :: cur) by
        simp [runSplitAux, hc]]
      rw [ih (c :: cur) (fun d hd => hnd d (by simp [hd]))]
      simp

theorem matchSegs_nodelim (s : String) (hne : s ≠ "")
    (hnd : ∀ c ∈ s.toList, isDelim c = false) : matchSegs s = some [s] := by
  have hl : s.toList ≠ [] := by
    intro h
    apply hne
    cases s with
    | mk l =>
        cases h
        rfl
  have hd : s.data ≠ [] := hl
  unfold matchSegs
  rw [runSplitAux_nodelim s.toList [] hnd]
  simp [hl, hd]

/-- **C6 counterexample.** The claim says the view-model property at
the control's registered name is replaced by the control's new value.
Register a control under the name `"a.b"` (the main implementation
adds it to the form group under that literal key): on a value change
the raw group value is `{"a.b": 1}`, but the handler reads it back
with the *split* path `["a","b"]`, misses, and writes the default
`null` — not the control's new value `1` — into the view model. -/
theorem valueChangesHandler_dotted_name_writes_default :
    valueChangesHandler "a.b" (JsValue.obj [("a.b", JsValue.num 1)])
      (JsValue.obj [("a", JsValue.obj [("b", JsValue.num 0)])]) =
      some (JsValue.obj [("a", JsValue.obj [("b", JsValue.null)])]) ∧
    structLookup (JsValue.obj [("a", JsValue.obj [("b", JsValue.null)])]) ["a", "b"] ≠
      some (JsValue.num 1) :=
  ⟨rfl, by
    intro h
    rw [show structLookup (JsValue.obj [("a", JsValue.obj [("b", JsValue.null)])]) ["a", "b"] =
        some JsValue.null from rfl] at h
    injection h with h1
    exact JsValue.noConfusion h1⟩

/-- **C6 (amended).** On a value change of the form for a control
registered under a name containing no `'.'`, `'['` or `']'`
character, the view-model signal is set to a deep clone of its
previous value in which only the property at that name has been
replaced by the control's new value — `null` when that value is
`null`/`undefined` (conjuncts 1 and 2); every other property of the
view model is unchanged (conjunct 3), and the previously held view
model object is not mutated (the clone is updated functionally, so
the old value is untouched by construction).  For a name containing
delimiters the written value is instead the split-path lookup in the
raw group value (see the counterexample). -/
theorem valueChangesHandler_single_segment (n : String) (v : JsValue)
    (fs gs : List (String × JsValue)) (hne : n ≠ "")
    (hnd : ∀ c ∈ n.toList, isDelim c = false) (hraw : lookupField gs n = some v) :
    valueChangesHandler n (.obj gs) (.obj fs) =
      some (.obj (setField fs n (if nullish v then JsValue.null else v))) ∧
    lookupField (setField fs n (if nullish v then JsValue.null else v)) n =
      some (if nullish v then JsValue.null else v) ∧
    ∀ k, k ≠ n → lookupField (setField fs n (if nullish v then JsValue.null else v)) k =
      lookupField fs k := by
  have hseg := matchSegs_nodelim n hne hnd
  have hget := getModelPropertyValue_eq_of_segs (.obj gs) n [n] JsValue.null hseg
  have hwalk : walkGet (JsValue.obj gs) [n] = v := by
    simp [walkGet, truthy, getMember, hraw]
  rw [hwalk] at hget
  refine ⟨?_, lookupField_setField_self _ _ _, fun k hk => lookupField_setField_ne _ _ _ _ hk⟩
  simp [valueChangesHandler, truthy, hget, structuredClone, setModelPropertyValue, pathSegs,
    hseg, setWalk]

/-- Witness for `valueChangesHandler_single_segment`: the control
`"age"` changed to `42`; only `"age"` changes in the view model, the
sibling `"nick"` is untouched. -/
theorem valueChangesHandler_single_segment_witness :
    ("age" : String) ≠ "" ∧
    lookupField [("age", JsValue.num 42)] "age" = some (JsValue.num 42) ∧
    valueChangesHandler "age" (JsValue.obj [("age", JsValue.num 42)])
      (JsValue.obj [("age", JsValue.num 7), ("nick", JsValue.str "Bo")]) =
      some (JsValue.obj [("age", JsValue.num 42), ("nick", JsValue.str "Bo")]) :=
  ⟨by decide, rfl,
   (valueChangesHandler_single_segment "age" (JsValue.num 42)
      [("age", JsValue.num 7), ("nick", JsValue.str "Bo")] [("age", JsValue.num 42)]
      (by decide) (by decide) rfl).1⟩

theorem reapply_not_create_resolve (e : Effect) (h : isReapplyB e = true) :
    isCreateB e = false ∧ isResolveB e = false := by
  cases e <;> simp_all [isReapplyB, isCreateB, isResolveB]

theorem loadComponentAsync_of_some (env : Env) (st : CompState) (c : CompType)
    (h : st.component = some c) : loadComponentAsync env st = (st, []) := by
  simp [loadComponentAsync, h]

theorem loadComponentAsync_fields (env : Env) (st : CompState) :
    (loadComponentAsync env st).1.componentRef = st.componentRef ∧
    (loadComponentAsync env st).1.formControl = st.formControl := by
  unfold loadComponentAsync
  split
  · split <;> simp
  · simp

theorem loadComponentAsync_effects (env : Env) (st : CompState) :
    ∀ e ∈ (loadComponentAsync env st).2, ∃ c, e = Effect.resolveStore c := by
  unfold loadComponentAsync
  split
  · split
    · rename_i s _
      cases hreg : getComponentByName env.registry s <;> simp [hreg]
    · simp
    · simp
    · simp
  · simp

theorem loadComponentAsync_resolve_le1 (env : Env) (st : CompState) :
    (loadComponentAsync env st).2.countP isResolveB ≤ 1 := by
  unfold loadComponentAsync
  split
  · split
    · rename_i s _
      cases hreg : getComponentByName env.registry s <;>
        simp [hreg, List.countP_cons, isResolveB]
    · simp [List.countP_cons, isResolveB]
    · simp [List.countP_cons, isResolveB]
    · simp
  · simp

theorem loadComponentAsync_resolve_pos (env : Env) (st : CompState)
    (h : 0 < (loadComponentAsync env st).2.countP isResolveB) :
    (loadComponentAsync env st).1.component.isSome = true := by
  revert h
  unfold loadComponentAsync
  split
  · split
    · rename_i s _
      cases hreg : getComponentByName env.registry s <;>
        simp [hreg, List.countP_cons, isResolveB]
    · simp
    · simp
    · simp
  · simp

theorem createFormControl_preserves (env : Env) (st : CompState) :
    (createFormControl env st).1.component = st.component ∧
    (createFormControl env st).1.componentRef = st.componentRef := by
  unfold createFormControl
  split
  · split <;> simp
  · simp

theorem createFormControl_effects (env : Env) (st : CompState) :
    ∀ e ∈ (createFormControl env st).2.1, ∃ p i, e = Effect.addControl p i := by
  unfold createFormControl
  split
  · split <;> simp
  · simp

theorem createComponent_of_ref (env : Env) (st : CompState) (h : st.componentRef = true) :
    createComponent env st = (st, [], false) := by
  simp [createComponent, h]

theorem createComponent_component (env : Env) (st : CompState) :
    (createComponent env st).1.component = st.component := by
  unfold createComponent
  split
  · exact (createFormControl_preserves env _).1
  · rfl

theorem createComponent_ref_of_mem (env : Env) (st : CompState)
    (h : Effect.create ∈ (createComponent env st).2.1) :
    (createComponent env st).1.componentRef = true := by
  revert h
  unfold createComponent
  split
  · intro _
    exact (createFormControl_preserves env _).2
  · simp

theorem createComponent_ref_cases (env : Env) (st : CompState)
    (h : (createComponent env st).1.componentRef = true) :
    st.componentRef = true ∨ st.component.isSome = true := by
  revert h
  unfold createComponent
  split
  · rename_i hguard
    intro _
    right
    simp only [Bool.and_eq_true] at hguard
    exact hguard.1.1
  · intro h
    exact Or.inl h

theorem createComponent_create_le1 (env : Env) (st : CompState) :
    (createComponent env st).2.1.countP isCreateB ≤ 1 := by
  unfold createComponent
  split
  · rw [List.countP_cons_of_pos isCreateB _ (by simp [isCreateB])]
    have h0 : ((if env.outputs.isSome then [Effect.outputsSubscribed] else []) ++
        (createFormControl env { st with componentRef := true }).2.1).countP isCreateB = 0 := by
      rw [List.countP_eq_zero]
      intro e he
      rcases List.mem_append.mp he with he | he
      · split at he <;> simp_all [isCreateB]
      · rcases createFormControl_effects env _ e he with ⟨p, i, rfl⟩
        simp [isCreateB]
    simp [h0]
  · simp

theorem createComponent_resolve_zero (env : Env) (st : CompState) :
    (createComponent env st).2.1.countP isResolveB = 0 := by
  unfold createComponent
  split
  · rw [List.countP_cons_of_neg isResolveB _ (by simp [isResolveB])]
    rw [List.countP_eq_zero]
    intro e he
    rcases List.mem_append.mp he with he | he
    · split at he <;> simp_all [isResolveB]
    · rcases createFormControl_effects env _ e he with ⟨p, i, rfl⟩
      simp [isResolveB]
  · simp

theorem setters_reapply (env : Env) (st : CompState) :
    (∀ e ∈ setInputs env st, isReapplyB e = true) ∧
    (∀ e ∈ setAttributes env st, isReapplyB e = true) ∧
    (∀ e ∈ setVisibility env st, isReapplyB e = true) ∧
    (∀ e ∈ setFormControlStatus env st, isReapplyB e = true) ∧
    (∀ e ∈ setFormControlValidators env st, isReapplyB e = true) := by
  refine ⟨?_, ?_, ?_, ?_, ?_⟩
  · unfold setInputs
    split
    · intro e he
      rcases List.mem_map.mp he with ⟨kv, _, rfl⟩
      simp [isReapplyB]
    · simp
  · unfold setAttributes
    split
    · intro e he
      rcases List.mem_map.mp he with ⟨kv, _, rfl⟩
      simp [isReapplyB]
    · simp
  · unfold setVisibility
    split <;> simp [isReapplyB]
  · unfold setFormControlStatus
    split <;> simp [isReapplyB]
  · unfold setFormControlValidators
    split <;> simp [isReapplyB]

theorem ngOnChangesStep_fst (env : Env) (st : CompState) :
    (ngOnChangesStep env st).1 = (createComponent env (loadComponentAsync env st).1).1 := by
  unfold ngOnChangesStep
  dsimp only
  split <;> rfl

theorem ngOnChangesStep_effects (env : Env) (st : CompState) :
    ∃ tail, (ngOnChangesStep env st).2 =
      (loadComponentAsync env st).2 ++
        (createComponent env (loadComponentAsync env st).1).2.1 ++ tail ∧
      ∀ e ∈ tail, isReapplyB e = true := by
  unfold ngOnChangesStep
  dsimp only
  split
  · exact ⟨[], by simp, by simp⟩
  · refine ⟨setInputs env (createComponent env (loadComponentAsync env st).1).1 ++
      setAttributes env (createComponent env (loadComponentAsync env st).1).1 ++
      setVisibility env (createComponent env (loadComponentAsync env st).1).1 ++
      setFormControlStatus env (createComponent env (loadComponentAsync env st).1).1 ++
      setFormControlValidators env (createComponent env (loadComponentAsync env st).1).1,
      by simp [List.append_assoc], ?_⟩
    intro e he
    rcases List.mem_append.mp he with he | he
    · rcases List.mem_append.mp he with he | he
      · rcases List.mem_append.mp he with he | he
        · rcases List.mem_append.mp he with he | he
          · exact (setters_reapply env _).1 e he
          · exact (setters_reapply env _).2.1 e he
        · exact (setters_reapply env _).2.2.1 e he
      · exact (setters_reapply env _).2.2.2.1 e he
    · exact (setters_reapply env _).2.2.2.2 e he

theorem ngOnChangesStep_component_mono (env : Env) (st : CompState) (c : CompType)
    (h : st.component = some c) : (ngOnChangesStep env st).1.component = some c := by
  rw [ngOnChangesStep_fst, createComponent_component, loadComponentAsync_of_some env st c h, h]

theorem ngOnChangesStep_ref_mono (env : Env) (st : CompState)
    (h : st.componentRef = true) : (ngOnChangesStep env st).1.componentRef = true := by
  rw [ngOnChangesStep_fst]
  have h1 : (loadComponentAsync env st).1.componentRef = true :=
    (loadComponentAsync_fields env st).1.trans h
  rw [createComponent_of_ref env _ h1]
  exact h1

theorem ngOnChangesStep_stable (env : Env) (st : CompState)
    (href : st.componentRef = true) (hcomp : st.component.isSome = true) :
    (ngOnChangesStep env st).1 = st ∧
    ∀ e ∈ (ngOnChangesStep env st).2, isReapplyB e = true := by
  rcases Option.isSome_iff_exists.mp hcomp with ⟨c, hc⟩
  have hload := loadComponentAsync_of_some env st c hc
  have hcreate : createComponent env (loadComponentAsync env st).1 = (st, [], false) := by
    rw [hload]
    exact createComponent_of_ref env st href
  constructor
  · rw [ngOnChangesStep_fst, hcreate]
  · rcases ngOnChangesStep_effects env st with ⟨tail, heq, htail⟩
    intro e he
    rw [heq, hcreate, hload] at he
    simp only [List.nil_append, List.append_nil] at he
    exact htail e he

theorem ngOnChangesStep_inv (env : Env) (st : CompState)
    (hinv : st.componentRef = true → st.component.isSome = true) :
    (ngOnChangesStep env st).1.componentRef = true →
      (ngOnChangesStep env st).1.component.isSome = true := by
  intro href
  rw [ngOnChangesStep_fst] at href ⊢
  rw [createComponent_component]
  rcases createComponent_ref_cases env _ href with h1 | h1
  · rw [(loadComponentAsync_fields env st).1] at h1
    rcases Option.isSome_iff_exists.mp (hinv h1) with ⟨c, hc⟩
    rw [loadComponentAsync_of_some env st c hc, hc]
    rfl
  · exact h1

theorem ngOnChangesStep_resolve_le1 (env : Env) (st : CompState) :
    (ngOnChangesStep env st).2.countP isResolveB ≤ 1 := by
  rcases ngOnChangesStep_effects env st with ⟨tail, heq, htail⟩
  have htail0 : tail.countP isResolveB = 0 := by
    rw [List.countP_eq_zero]
    intro e he
    simp [(reapply_not_create_resolve e (htail e he)).2]
  rw [heq, List.countP_append, List.countP_append, htail0, createComponent_resolve_zero]
  simpa using loadComponentAsync_resolve_le1 env st

theorem ngOnChangesStep_resolve_zero (env : Env) (st : CompState)
    (h : st.component.isSome = true) : (ngOnChangesStep env st).2.countP isResolveB = 0 := by
  rcases Option.isSome_iff_exists.mp h with ⟨c, hc⟩
  rcases ngOnChangesStep_effects env st with ⟨tail, heq, htail⟩
  have htail0 : tail.countP isResolveB = 0 := by
    rw [List.countP_eq_zero]
    intro e he
    simp [(reapply_not_create_resolve e (htail e he)).2]
  rw [heq, List.countP_append, List.countP_append, htail0, createComponent_resolve_zero,
    loadComponentAsync_of_some env st c hc]
  rfl

theorem ngOnChangesStep_resolve_pos (env : Env) (st : CompState)
    (h : 0 < (ngOnChangesStep env st).2.countP isResolveB) :
    (ngOnChangesStep env st).1.component.isSome = true := by
  rcases ngOnChangesStep_effects env st with ⟨tail, heq, htail⟩
  have htail0 : tail.countP isResolveB = 0 := by
    rw [List.countP_eq_zero]
    intro e he
    simp [(reapply_not_create_resolve e (htail e he)).2]
  rw [heq, List.countP_append, List.countP_append, htail0, createComponent_resolve_zero] at h
  simp only [Nat.add_zero] at h
  have hld := loadComponentAsync_resolve_pos env st h
  rcases Option.isSome_iff_exists.mp hld with ⟨c, hc⟩
  rw [ngOnChangesStep_fst, createComponent_component]
  exact Option.isSome_iff_exists.mpr ⟨c, hc⟩

theorem ngOnChangesStep_create_le1 (env : Env) (st : CompState) :
    (ngOnChangesStep env st).2.countP isCreateB ≤ 1 := by
  rcases ngOnChangesStep_effects env st with ⟨tail, heq, htail⟩
  have htail0 : tail.countP isCreateB = 0 := by
    rw [List.countP_eq_zero]
    intro e he
    simp [(reapply_not_create_resolve e (htail e he)).1]
  have hload0 : (loadComponentAsync env st).2.countP isCreateB = 0 := by
    rw [List.countP_eq_zero]
    intro e he
    rcases loadComponentAsync_effects env st e he with ⟨c, rfl⟩
    simp [isCreateB]
  rw [heq, List.countP_append, List.countP_append, htail0, hload0]
  simpa using createComponent_create_le1 env (loadComponentAsync env st).1

theorem ngOnChangesStep_create_zero (env : Env) (st : CompState)
    (h : st.componentRef = true) : (ngOnChangesStep env st).2.countP isCreateB = 0 := by
  rcases ngOnChangesStep_effects env st with ⟨tail, heq, htail⟩
  have htail0 : tail.countP isCreateB = 0 := by
    rw [List.countP_eq_zero]
    intro e he
    simp [(reapply_not_create_resolve e (htail e he)).1]
  have hload0 : (loadComponentAsync env st).2.countP isCreateB = 0 := by
    rw [List.countP_eq_zero]
    intro e he
    rcases loadComponentAsync_effects env st e he with ⟨c, rfl⟩
    simp [isCreateB]
  have h1 : (loadComponentAsync env st).1.componentRef = true :=
    (loadComponentAsync_fields env st).1.trans h
  rw [heq, List.countP_append, List.countP_append, htail0, hload0,
    createComponent_of_ref env _ h1]
  rfl

theorem ngOnChangesStep_create_mem (env : Env) (st : CompState)
    (h : Effect.create ∈ (ngOnChangesStep env st).2) :
    (ngOnChangesStep env st).1.componentRef = true := by
  rcases ngOnChangesStep_effects env st with ⟨tail, heq, htail⟩
  rw [heq] at h
  rw [ngOnChangesStep_fst]
  rcases List.mem_append.mp h with h | h
  · rcases List.mem_append.mp h with h | h
    · rcases loadComponentAsync_effects env st _ h with ⟨c, hc⟩
      exact Effect.noConfusion hc
    · exact createComponent_ref_of_mem env _ h
  · have := htail _ h
    simp [isReapplyB] at this

theorem isCreateB_eq (e : Effect) (h : isCreateB e = true) : e = Effect.create := by
  cases e <;> simp_all [isCreateB]

theorem trace_resolve_zero (envs : List Env) :
    ∀ st : CompState, st.component.isSome = true →
      ((ngOnChangesTrace envs st).flatten.countP isResolveB) = 0 := by
  induction envs with
  | nil => intro st _; simp [ngOnChangesTrace]
  | cons e rest ih =>
      intro st h
      rcases Option.isSome_iff_exists.mp h with ⟨c, hc⟩
      have hnext : (ngOnChangesStep e st).1.component.isSome = true := by
        rw [ngOnChangesStep_component_mono e st c hc]
        rfl
      simp only [ngOnChangesTrace, List.flatten_cons, List.countP_append]
      rw [ngOnChangesStep_resolve_zero e st h, ih _ hnext]

theorem trace_resolve_le1 (envs : List Env) :
    ∀ st : CompState, ((ngOnChangesTrace envs st).flatten.countP isResolveB) ≤ 1 := by
  induction envs with
  | nil => intro st; simp [ngOnChangesTrace]
  | cons e rest ih =>
      intro st
      simp only [ngOnChangesTrace, List.flatten_cons, List.countP_append]
      by_cases h : 0 < (ngOnChangesStep e st).2.countP isResolveB
      · have hz := trace_resolve_zero rest _ (ngOnChangesStep_resolve_pos e st h)
        have hle := ngOnChangesStep_resolve_le1 e st
        omega
      · have h0 : (ngOnChangesStep e st).2.countP isResolveB = 0 := by omega
        rw [h0]
        simpa using ih _

theorem trace_create_zero (envs : List Env) :
    ∀ st : CompState, st.componentRef = true →
      ((ngOnChangesTrace envs st).flatten.countP isCreateB) = 0 := by
  induction envs with
  | nil => intro st _; simp [ngOnChangesTrace]
  | cons e rest ih =>
      intro st h
      simp only [ngOnChangesTrace, List.flatten_cons, List.countP_append]
      rw [ngOnChangesStep_create_zero e st h, ih _ (ngOnChangesStep_ref_mono e st h)]

theorem trace_create_le1 (envs : List Env) :
    ∀ st : CompState, ((ngOnChangesTrace envs st).flatten.countP isCreateB) ≤ 1 := by
  induction envs with
  | nil => intro st; simp [ngOnChangesTrace]
  | cons e rest ih =>
      intro st
      simp only [ngOnChangesTrace, List.flatten_cons, List.countP_append]
      by_cases h : 0 < (ngOnChangesStep e st).2.countP isCreateB
      · rcases List.countP_pos_iff.mp h with ⟨a, ha, hpa⟩
        have hmem : Effect.create ∈ (ngOnChangesStep e st).2 := isCreateB_eq a hpa ▸ ha
        have hz := trace_create_zero rest _ (ngOnChangesStep_create_mem e st hmem)
        have hle := ngOnChangesStep_create_le1 e st
        omega
      · have h0 : (ngOnChangesStep e st).2.countP isCreateB = 0 := by omega
        rw [h0]
        simpa using ih _

theorem trace_reapply (envs : List Env) :
    ∀ st : CompState, st.componentRef = true → st.component.isSome = true →
      ∀ s ∈ ngOnChangesTrace envs st, ∀ e ∈ s, isReapplyB e = true := by
  induction envs with
  | nil => simp [ngOnChangesTrace]
  | cons eenv rest ih =>
      intro st h1 h2 s hs
      rcases ngOnChangesStep_stable eenv st h1 h2 with ⟨hst, heff⟩
      simp only [ngOnChangesTrace, List.mem_cons] at hs
      rcases hs with rfl | hs
      · exact heff
      · exact ih _ (by rw [hst]; exact h1) (by rw [hst]; exact h2) s hs

theorem runEnvs_append_one (pre : List Env) (e : Env) (st : CompState) :
    runEnvs (pre ++ [e]) st = (ngOnChangesStep e (runEnvs pre st)).1 := by
  simp [runEnvs, List.foldl_append]

theorem runEnvs_inv (envs : List Env) :
    ∀ st : CompState, (st.componentRef = true → st.component.isSome = true) →
      (runEnvs envs st).componentRef = true → (runEnvs envs st).component.isSome = true := by
  induction envs with
  | nil => intro st h; exact h
  | cons e rest ih => intro st h; exact ih _ (ngOnChangesStep_inv e st h)

/-- **C8.** Across every sequence of `ngOnChanges` invocations on one
instance, a component class is resolved and stored at most once
(conjunct 1: `loadComponentAsync` does nothing once the component is
stored) and at most one dynamic component instance is created and
inserted (conjunct 2: `createComponent` does nothing once a reference
exists); every invocation after the one that created the instance
emits only re-applications — inputs, attributes, visibility, control
status and validators — on the existing instance (conjunct 3). -/
theorem ngOnChanges_single_shot (envs : List Env) :
    ((ngOnChangesTrace envs initState).flatten.countP isResolveB ≤ 1) ∧
    ((ngOnChangesTrace envs initState).flatten.countP isCreateB ≤ 1) ∧
    (∀ envsPre env envsPost, envs = envsPre ++ env :: envsPost →
      Effect.create ∈ (ngOnChangesStep env (runEnvs envsPre initState)).2 →
      ∀ s ∈ ngOnChangesTrace envsPost (runEnvs (envsPre ++ [env]) initState),
        ∀ e ∈ s, isReapplyB e = true) := by
  refine ⟨trace_resolve_le1 envs initState, trace_create_le1 envs initState, ?_⟩
  intro envsPre env envsPost _ hcreate s hs e he
  have hinv0 : initState.componentRef = true → initState.component.isSome = true := by
    intro h
    exact absurd h (by simp [initState])
  have hinvPre := runEnvs_inv envsPre initState hinv0
  have href : (ngOnChangesStep env (runEnvs envsPre initState)).1.componentRef = true :=
    ngOnChangesStep_create_mem env _ hcreate
  have hcompSome := ngOnChangesStep_inv env _ hinvPre href
  rw [runEnvs_append_one] at hs
  exact trace_reapply envsPost _ href hcompSome s hs e he

/-- Witness for `ngOnChanges_single_shot`: two invocations with a
directly configured component class; the first one creates the
instance, the second only re-applies the configured input. -/
theorem ngOnChanges_single_shot_witness :
    ([ctorEnv, ctorEnv] : List Env) = [] ++ ctorEnv :: [ctorEnv] ∧
    Effect.create ∈ (ngOnChangesStep ctorEnv (runEnvs [] initState)).2 ∧
    ∀ s ∈ ngOnChangesTrace [ctorEnv] (runEnvs ([] ++ [ctorEnv]) initState),
      ∀ e ∈ s, isReapplyB e = true := by
  have hmem : Effect.create ∈ (ngOnChangesStep ctorEnv (runEnvs [] initState)).2 := by
    rw [show (ngOnChangesStep ctorEnv (runEnvs [] initState)).2 =
      [Effect.resolveStore 3, Effect.create,
        Effect.setInput "label" (JsValue.str "Name")] from rfl]
    exact List.mem_cons_of_mem _ (List.mem_cons_self _ _)
  exact ⟨rfl, hmem,
    (ngOnChanges_single_shot [ctorEnv, ctorEnv]).2.2 [] ctorEnv [ctorEnv] rfl hmem⟩

end FGDynamic
